import Mathlib

/-!
# Verification of the per-conversation debounce / bounded-history engine

Shallow embedding of `src/app.py` of the `ms_teams_bot` repository.

The Python module keeps two process-global dictionaries,
`chat_history : dict[str, list[dict]]` (a `defaultdict(list)`) and
`message_buffers : dict[str, {"timer": Timer, "messages": list[str]}]`,
and the functions `generate_conversation`, `append_chat_history`,
`generate_response`, `process_buffered_messages` and `buffer_message`
that mutate them.  Here the dictionaries become association lists
threaded explicitly through the functions, and each Python function
becomes a Lean function of the same name returning the updated state.

External collaborators (the LLM call `model.invoke`, the operator's
`input()` answer, and `TeamsService.send_message`) are modelled as an
`Oracle` record of functions; a call that can raise returns `Except`.

`threading.Timer` objects are modelled by their deadline (`fireAt`,
a rational number of seconds) and the `message_id` argument they were
armed with.  Cancellation-and-rearm (`timer.cancel()` followed by a new
`Timer(...).start()`) is modelled by replacing the stored timer: the
discrete-event simulator `run_events` below only ever fires the timer
currently stored in a buffer, which is exactly the behaviour of
`threading.Timer` when the cancel happens strictly before the deadline
(the only regime the claims quantify over).
-/

/-- `user_type` of a history entry: `'me'` (the bot) or `'user'`. -/
inductive UserType where
  | me : UserType
  | user : UserType
deriving DecidableEq, Repr

/-- One entry of `chat_history[chat_id]`: the dict
`{"message_id": ..., "user_type": ..., "content": ...}` built in
`append_chat_history`.  `message_id` is `None` for bot turns. -/
structure HistEntry where
  message_id : Option String
  user_type : UserType
  content : String
deriving DecidableEq, Repr

/-- A `threading.Timer` armed by `buffer_message`: its absolute deadline
(arm time + `MESSAGE_DELAY`) and the `message_id` passed to the
`process_buffered_messages` callback. -/
structure TimerT where
  fireAt : ℚ
  message_id : String
deriving DecidableEq, Repr

/-- One value of `message_buffers`: `{"timer": Timer | None, "messages": [...]}`. -/
structure Buffer where
  timer : Option TimerT
  messages : List String
deriving DecidableEq, Repr

/-! ## Python `dict` as an association list (insertion ordered, unique keys) -/

/-- `d.get(k)` / `k in d` lookup. -/
def alistGet {α : Type} : List (String × α) → String → Option α
  | [], _ => none
  | p :: ps, k => if p.1 = k then some p.2 else alistGet ps k

/-- `d[k] = v` (replace in place, or append a fresh key at the end,
like an insertion-ordered Python dict). -/
def alistSet {α : Type} : List (String × α) → String → α → List (String × α)
  | [], k, v => [(k, v)]
  | p :: ps, k, v => if p.1 = k then (k, v) :: ps else p :: alistSet ps k v

/-- `del d[k]`. -/
def alistErase {α : Type} : List (String × α) → String → List (String × α)
  | [], _ => []
  | p :: ps, k => if p.1 = k then alistErase ps k else p :: alistErase ps k

/-- The keyed history map; `defaultdict(list)` lookup defaults to `[]`. -/
abbrev Histories : Type := List (String × List HistEntry)

/-- `chat_history[chat_id]` (with the `defaultdict(list)` default). -/
def histGet (h : Histories) (chat_id : String) : List HistEntry :=
  (alistGet h chat_id).getD []

/-- The whole mutable state of `app.py`: both global dictionaries. -/
structure AppState where
  chat_history : Histories
  message_buffers : List (String × Buffer)
deriving DecidableEq, Repr

/-! ## Constants (`app.py` lines 15-17) -/

/-- `MAX_MESSAGE_HISTORY = 20`. -/
def MAX_MESSAGE_HISTORY : Nat := 20

/-- `MESSAGE_DELAY = 5` seconds to wait before processing messages. -/
def MESSAGE_DELAY : ℚ := 5

/-! ## The functions of `app.py` -/

/-- `generate_conversation(messages, user_name)`:
`'\n'.join(f"{user_name if m['user_type'] == 'user' else 'Me'}: {m['content']}" for m in messages)`. -/
def generate_conversation (messages : List HistEntry) (user_name : String) : String :=
  String.intercalate "\n"
    (messages.map (fun m =>
      (if m.user_type = UserType.user then user_name else "Me") ++ ": " ++ m.content))

/-- The per-key core of `append_chat_history`: if the list is at
`MAX_MESSAGE_HISTORY`, `pop(0)` first, then `append` the new entry. -/
def append_hist_entry (hist : List HistEntry) (e : HistEntry) : List HistEntry :=
  (if hist.length ≥ MAX_MESSAGE_HISTORY then hist.drop 1 else hist) ++ [e]

/-- `append_chat_history(chat_id, user_type, content, message_id)` on the
keyed map. -/
def append_chat_history (h : Histories) (chat_id : String) (user_type : UserType)
    (content : String) (message_id : Option String) : Histories :=
  alistSet h chat_id (append_hist_entry (histGet h chat_id) ⟨message_id, user_type, content⟩)

/-- `user_names.get(chat_id, "User")`. -/
def get_user_name (user_names : List (String × String)) (chat_id : String) : String :=
  (alistGet user_names chat_id).getD "User"

/-- Python's `str.lower()` (as used in `choice.lower()`): character-wise
lowercasing.  Same function as Lean's `String.toLower = String.map
Char.toLower`, written over `data` so that it reduces in the kernel. -/
def str_lower (s : String) : String := String.mk (s.data.map Char.toLower)

/-- External collaborators of the core: the LLM chain invocation
(`model.invoke({"conversation": ..., "user_name": ...})`), the operator's
`input()` answer, and `TeamsService.send_message`.  `Except Unit` models
a call that may raise. -/
structure Oracle where
  gen : String → String → Except Unit String
  choice : String → String
  send : String → String → Except Unit Unit

/-- `generate_response(chat_id)`: render the conversation, invoke the LLM
(which may raise; the raise propagates and nothing is appended), and on
success append the `'me'` turn (with `message_id = None`) and return the
response text. -/
def generate_response (gen : String → String → Except Unit String)
    (user_names : List (String × String)) (h : Histories) (chat_id : String) :
    Except Unit (Histories × String) :=
  let user_name := get_user_name user_names chat_id
  let conversation := generate_conversation (histGet h chat_id) user_name
  match gen conversation user_name with
  | Except.error e => Except.error e
  | Except.ok response_text =>
      Except.ok (append_chat_history h chat_id UserType.me response_text none, response_text)

/-- What a run of `process_buffered_messages` that found a buffer did:
the merged (space-joined) batch content, and whether the call returned
normally (`ok = true`) or an exception escaped (`ok = false`). -/
structure FlushOutcome where
  merged : String
  ok : Bool
deriving DecidableEq, Repr

/-- `process_buffered_messages(chat_id, message_id, teams_service)`.

Mirrors the Python control flow exactly: there is no `try/finally`, so
`del message_buffers[chat_id]` is reached only when neither the LLM call
nor `send_message` raises; on a raise the partial history mutations
survive and the buffer entry stays in the map.  Returns the state after
the call plus `some` outcome when the `chat_id in message_buffers` guard
passed (`none` when it did not). -/
def process_buffered_messages (o : Oracle) (user_names : List (String × String))
    (st : AppState) (chat_id message_id : String) : AppState × Option FlushOutcome :=
  match alistGet st.message_buffers chat_id with
  | none => (st, none)
  | some buf =>
    let buffered_messages := String.intercalate " " buf.messages
    let h1 := append_chat_history st.chat_history chat_id UserType.user
      buffered_messages (some message_id)
    match generate_response o.gen user_names h1 chat_id with
    | Except.error _ =>
        ({ st with chat_history := h1 }, some ⟨buffered_messages, false⟩)
    | Except.ok (h2, response) =>
        let choice := o.choice chat_id
        if choice != "" && str_lower choice == "y" then
          match o.send chat_id response with
          | Except.error _ =>
              ({ st with chat_history := h2 }, some ⟨buffered_messages, false⟩)
          | Except.ok _ =>
              ({ chat_history := h2,
                 message_buffers := alistErase st.message_buffers chat_id },
               some ⟨buffered_messages, true⟩)
        else
          ({ chat_history := h2,
             message_buffers := alistErase st.message_buffers chat_id },
           some ⟨buffered_messages, true⟩)

/-- `buffer_message(message, message_id, chat_id, teams_service)` at wall
time `now`.  Note the order in the source: the (possibly empty) buffer
entry is created *before* the dedup check against `chat_history`; a
dedup hit then returns without appending and without touching timers.
Arming the timer stores deadline `now + MESSAGE_DELAY` and the callback
argument `message_id`; the previously stored timer is discarded
(cancelled). -/
def buffer_message (now : ℚ) (st : AppState) (message message_id chat_id : String) :
    AppState :=
  let bufs0 :=
    if (alistGet st.message_buffers chat_id).isSome then st.message_buffers
    else alistSet st.message_buffers chat_id ⟨none, []⟩
  if (histGet st.chat_history chat_id).any (fun e => e.message_id == some message_id) then
    { st with message_buffers := bufs0 }
  else
    let buf := (alistGet bufs0 chat_id).getD ⟨none, []⟩
    let buf' : Buffer :=
      ⟨some ⟨now + MESSAGE_DELAY, message_id⟩, buf.messages ++ [message]⟩
    { st with message_buffers := alistSet bufs0 chat_id buf' }

/-! ## Discrete-event simulator

`poll_messages` / `fetch_new_messages` feed each fetched message into
`buffer_message`; independently, armed timers run
`process_buffered_messages` when their deadline passes without the timer
having been cancelled.  The simulator below executes a timestamped trace
of incoming messages: before each ingest it fires every armed timer
whose deadline is `≤` the ingest's wall time (a timer whose deadline has
not yet passed when the next ingest for its key arrives is cancelled by
the rearm in `buffer_message`, so it never runs), and after the last
ingest it fires all remaining timers. -/

/-- One incoming message of the trace: wall time plus the arguments the
poll loop passes to `buffer_message`. -/
structure Event where
  time : ℚ
  message : String
  message_id : String
  chat_id : String
deriving DecidableEq, Repr

/-- An observed execution of `process_buffered_messages` that found a
buffer: when and for which key the timer fired, the `message_id` the
timer carried, and the outcome. -/
structure FlushRec where
  time : ℚ
  chat_id : String
  message_id : String
  merged : String
  ok : Bool
deriving DecidableEq, Repr

/-- Is a stored timer due at wall time `t`?  (`none` = end of trace:
every still-armed timer eventually fires.) -/
def isDue (t : Option ℚ) (tm : TimerT) : Bool :=
  match t with
  | none => true
  | some x => decide (tm.fireAt ≤ x)

/-- The armed timers due at `t`, in map order. -/
def due_timers (t : Option ℚ) (bufs : List (String × Buffer)) : List (String × TimerT) :=
  bufs.filterMap (fun p => p.2.timer.bind (fun tm => if isDue t tm then some (p.1, tm) else none))

/-- Fire one timer: the `Timer` object has left the runnable state (the
stored handle is dead from now on), then its callback
`process_buffered_messages(chat_id, message_id, teams_service)` runs. -/
def fire_timer (o : Oracle) (user_names : List (String × String)) (st : AppState)
    (chat_id : String) (tm : TimerT) : AppState × Option FlushRec :=
  let st1 :=
    match alistGet st.message_buffers chat_id with
    | some b =>
        { st with message_buffers := alistSet st.message_buffers chat_id { b with timer := none } }
    | none => st
  let r := process_buffered_messages o user_names st1 chat_id tm.message_id
  (r.1, r.2.map (fun out => ⟨tm.fireAt, chat_id, tm.message_id, out.merged, out.ok⟩))

/-- Fire every timer due at `t`. -/
def fire_due (o : Oracle) (user_names : List (String × String)) (t : Option ℚ)
    (st : AppState) : AppState × List FlushRec :=
  (due_timers t st.message_buffers).foldl
    (fun acc ktm =>
      let r := fire_timer o user_names acc.1 ktm.1 ktm.2
      (r.1, acc.2 ++ r.2.toList))
    (st, [])

/-- Process one trace event: fire the timers that expired strictly
before (or exactly at) its wall time, then ingest it. -/
def step_event (o : Oracle) (user_names : List (String × String)) (st : AppState)
    (e : Event) : AppState × List FlushRec :=
  let r := fire_due o user_names (some e.time) st
  (buffer_message e.time r.1 e.message e.message_id e.chat_id, r.2)

/-- The state at process start: both dictionaries empty. -/
def initState : AppState := ⟨[], []⟩

/-- Fold step of the simulator: process one event, accumulating the
flush log. -/
def step_acc (o : Oracle) (user_names : List (String × String))
    (acc : AppState × List FlushRec) (e : Event) : AppState × List FlushRec :=
  let r := step_event o user_names acc.1 e
  (r.1, acc.2 ++ r.2)

/-- Run a timestamped trace from process start, then let every remaining
armed timer fire.  Returns the final state and the flush log. -/
def run_events (o : Oracle) (user_names : List (String × String))
    (events : List Event) : AppState × List FlushRec :=
  let r := events.foldl (step_acc o user_names) (initState, [])
  let rF := fire_due o user_names none r.1
  (rF.1, r.2 ++ rF.2)

/-- The trace hypothesis of the debounce claims: consecutive events are
strictly increasing in time and strictly less than `MESSAGE_DELAY`
apart. -/
def gapsOk : List Event → Bool
  | [] => true
  | [_] => true
  | a :: b :: rest =>
      (decide (a.time < b.time) && decide (b.time < a.time + MESSAGE_DELAY))
        && gapsOk (b :: rest)

/-- Time and message id of the last event (accumulator style, total). -/
def lastTI (t0 : ℚ) (id0 : String) (es : List Event) : ℚ × String :=
  es.foldl (fun _ e => (e.time, e.message_id)) (t0, id0)

/-- Inserting a sequence of turns (as `fetch`/flush would) for one key,
via `append_chat_history`, starting from the empty history map. -/
def insert_turns (k : String) (es : List HistEntry) : Histories :=
  es.foldl (fun h e => append_chat_history h k e.user_type e.content e.message_id) []

/-- Modelled from the spec (§4.1 `render`): "produces a deterministic
text transcript of the stored sequence, formatting each turn as
`"<participantLabel>: <content>"` for participant turns and
`"<agent label>: <content>"` for agent turns, newline-joined, oldest
first."  Stated as its own recursion to be compared with the source's
`generate_conversation`. -/
def render_spec (participantLabel agentLabel : String) : List HistEntry → String
  | [] => ""
  | [m] => (if m.user_type = UserType.user then participantLabel else agentLabel) ++ ": " ++ m.content
  | m :: m' :: ms =>
      ((if m.user_type = UserType.user then participantLabel else agentLabel) ++ ": " ++ m.content)
        ++ "\n" ++ render_spec participantLabel agentLabel (m' :: ms)

/-! ## Association-list lemmas -/

theorem alistGet_set_self {α : Type} (l : List (String × α)) (k : String) (v : α) :
    alistGet (alistSet l k v) k = some v := by
  induction l with
  | nil => simp [alistGet, alistSet]
  | cons p ps ih =>
      by_cases h : p.1 = k <;> simp [alistGet, alistSet, h, ih]

theorem alistGet_set_ne {α : Type} (l : List (String × α)) (k k' : String) (v : α)
    (h : k' ≠ k) : alistGet (alistSet l k v) k' = alistGet l k' := by
  induction l with
  | nil => simp [alistGet, alistSet, Ne.symm h]
  | cons p ps ih =>
      by_cases hpk : p.1 = k
      · subst hpk
        simp [alistGet, alistSet, Ne.symm h]
      · simp [alistGet, alistSet, hpk, ih]

theorem alistGet_erase_self {α : Type} (l : List (String × α)) (k : String) :
    alistGet (alistErase l k) k = none := by
  induction l with
  | nil => simp [alistGet, alistErase]
  | cons p ps ih =>
      by_cases h : p.1 = k <;> simp [alistGet, alistErase, h, ih]

theorem histGet_append_self (h : Histories) (k : String) (ut : UserType)
    (c : String) (mid : Option String) :
    histGet (append_chat_history h k ut c mid) k
      = append_hist_entry (histGet h k) ⟨mid, ut, c⟩ := by
  simp [histGet, append_chat_history, alistGet_set_self]

/-! ## C4: bounded FIFO history -/

theorem foldl_append_hist_entry (es : List HistEntry) :
    ∀ acc : List HistEntry, acc.length ≤ MAX_MESSAGE_HISTORY →
      es.foldl append_hist_entry acc
        = (acc ++ es).drop ((acc ++ es).length - MAX_MESSAGE_HISTORY) := by
  induction es with
  | nil =>
      intro acc h
      simp [Nat.sub_eq_zero_of_le h]
  | cons e es ih =>
      intro acc h
      simp only [MAX_MESSAGE_HISTORY] at h
      by_cases hc : acc.length ≥ 20
      · have hlen : acc.length = 20 := le_antisymm h hc
        have hstep : append_hist_entry acc e = acc.drop 1 ++ [e] := by
          simp [append_hist_entry, MAX_MESSAGE_HISTORY, hc]
        have hlen' : (acc.drop 1 ++ [e]).length ≤ MAX_MESSAGE_HISTORY := by
          simp [MAX_MESSAGE_HISTORY, hlen]
        have hih := ih (acc.drop 1 ++ [e]) hlen'
        rw [List.foldl_cons, hstep, hih]
        have hrw : acc.drop 1 ++ [e] ++ es = (acc ++ e :: es).drop 1 := by
          rw [List.drop_append_of_le_length (by omega : 1 ≤ acc.length)]
          simp
        rw [hrw, List.drop_drop]
        congr 1
        simp only [List.length_drop, List.length_append, List.length_cons,
          MAX_MESSAGE_HISTORY]
        omega
      · have hstep : append_hist_entry acc e = acc ++ [e] := by
          simp only [append_hist_entry, MAX_MESSAGE_HISTORY]
          rw [if_neg hc]
        have hlen' : (acc ++ [e]).length ≤ MAX_MESSAGE_HISTORY := by
          simp only [List.length_append, List.length_cons, List.length_nil,
            MAX_MESSAGE_HISTORY]
          omega
        have hih := ih (acc ++ [e]) hlen'
        rw [List.foldl_cons, hstep, hih]
        simp

theorem insert_turns_histGet (k : String) (es : List HistEntry) :
    histGet (insert_turns k es) k = es.foldl append_hist_entry [] := by
  suffices hgen : ∀ (es : List HistEntry) (h : Histories),
      histGet (es.foldl
        (fun h e => append_chat_history h k e.user_type e.content e.message_id) h) k
        = es.foldl append_hist_entry (histGet h k) by
    have := hgen es []
    simpa [insert_turns, histGet, alistGet] using this
  intro es
  induction es with
  | nil => intro h; rfl
  | cons e es ih =>
      intro h
      rw [List.foldl_cons, List.foldl_cons, ih, histGet_append_self]

/-- C4: For every conversation key and every sequence of appends through
`append_chat_history`, the stored history never exceeds
`MAX_MESSAGE_HISTORY` (20), and the surviving turns are exactly the last
20 inserted, in order (the oldest entry, index 0, is the one popped when
an append would exceed the bound): inserting `n` turns from an empty map
leaves `es.drop (n - 20)`. -/
theorem history_bounded_fifo (es : List HistEntry) (k : String) :
    (histGet (insert_turns k es) k).length ≤ MAX_MESSAGE_HISTORY ∧
      histGet (insert_turns k es) k = es.drop (es.length - MAX_MESSAGE_HISTORY) := by
  have hfold := foldl_append_hist_entry es [] (by simp)
  rw [insert_turns_histGet, hfold]
  refine ⟨?_, by simp⟩
  simp only [List.nil_append, List.length_drop, MAX_MESSAGE_HISTORY]
  omega

/-! ## C8: deterministic transcript rendering -/

theorem intercalate_go_append (s : String) (as : List String) :
    ∀ x y : String, String.intercalate.go (x ++ y) s as = x ++ String.intercalate.go y s as := by
  induction as with
  | nil => intro x y; rfl
  | cons c cs ih =>
      intro x y
      show String.intercalate.go (x ++ y ++ s ++ c) s cs
        = x ++ String.intercalate.go (y ++ s ++ c) s cs
      rw [String.append_assoc x y s, String.append_assoc x (y ++ s) c]
      exact ih x (y ++ s ++ c)

theorem intercalate_cons_cons (s a b : String) (l : List String) :
    String.intercalate s (a :: b :: l) = a ++ s ++ String.intercalate s (b :: l) := by
  show String.intercalate.go a s (b :: l) = a ++ s ++ String.intercalate.go b s l
  show String.intercalate.go (a ++ s ++ b) s l = a ++ s ++ String.intercalate.go b s l
  exact intercalate_go_append s l (a ++ s) b

/-- C8: the transcript the code renders is exactly the spec's
deterministic rendering — each participant turn is formatted with the
participant label, each agent turn with the agent label `"Me"`, lines
newline-joined oldest first; and the participant label passed by
`generate_response` defaults to `"User"` when the conversation key has
no known display name. -/
theorem render_transcript_spec :
    (∀ (ms : List HistEntry) (u : String),
        generate_conversation ms u = render_spec u "Me" ms) ∧
      (∀ (user_names : List (String × String)) (k : String),
        alistGet user_names k = none → get_user_name user_names k = "User") := by
  constructor
  · intro ms u
    induction ms with
    | nil => rfl
    | cons m ms ih =>
        cases ms with
        | nil => rfl
        | cons m' ms' =>
            show String.intercalate "\n" (_ :: _ :: _) = _
            rw [intercalate_cons_cons]
            show _ = _ ++ "\n" ++ render_spec u "Me" (m' :: ms')
            rw [← ih]
            rfl
  · intro user_names k h
    simp [get_user_name, h]

/-- Witness for C8 at a concrete two-turn history and an unknown key. -/
theorem render_transcript_spec_witness :
    generate_conversation
        [⟨some "1", UserType.user, "hej"⟩, ⟨none, UserType.me, "yo"⟩] "Alice"
      = render_spec "Alice" "Me"
        [⟨some "1", UserType.user, "hej"⟩, ⟨none, UserType.me, "yo"⟩]
    ∧ get_user_name [("other", "Bob")] "c" = "User" :=
  ⟨render_transcript_spec.1 _ "Alice",
    render_transcript_spec.2 [("other", "Bob")] "c" (by decide)⟩

/-! ## Shape lemmas for `buffer_message` and `process_buffered_messages` -/

theorem alistSet_set_self {α : Type} (l : List (String × α)) (k : String) (v v' : α) :
    alistSet (alistSet l k v) k v' = alistSet l k v' := by
  induction l with
  | nil => simp [alistSet]
  | cons p ps ih =>
      by_cases h : p.1 = k
      · simp [alistSet, h]
      · simp [alistSet, h, ih]

/-- On a dedup miss, `buffer_message` appends the content to the (possibly
fresh) buffer's message list and arms a timer with deadline
`now + MESSAGE_DELAY` carrying this message's id; the history map is
untouched. -/
theorem buffer_message_not_dup (now : ℚ) (st : AppState) (m mid cid : String)
    (h : (histGet st.chat_history cid).any (fun e => e.message_id == some mid) = false) :
    buffer_message now st m mid cid =
      AppState.mk st.chat_history
        (alistSet st.message_buffers cid
          (Buffer.mk (some (TimerT.mk (now + MESSAGE_DELAY) mid))
            (((alistGet st.message_buffers cid).getD (Buffer.mk none [])).messages ++ [m]))) := by
  cases hb : alistGet st.message_buffers cid with
  | none =>
      simp [buffer_message, h, hb, alistGet_set_self, alistSet_set_self]
  | some b =>
      simp [buffer_message, h, hb]

/-- `process_buffered_messages` on a present buffer always reports an
outcome whose merged content is the space-join of the buffered messages. -/
theorem process_merged (o : Oracle) (unames : List (String × String)) (st : AppState)
    (k mid : String) (buf : Buffer) (hb : alistGet st.message_buffers k = some buf) :
    ∃ b, (process_buffered_messages o unames st k mid).2
      = some ⟨String.intercalate " " buf.messages, b⟩ := by
  unfold process_buffered_messages
  rw [hb]
  dsimp only
  split
  · exact ⟨false, rfl⟩
  · split
    · split
      · exact ⟨false, rfl⟩
      · exact ⟨true, rfl⟩
    · exact ⟨true, rfl⟩

/-! ## C2: ingest of an already-processed message id -/

/-- C2 (counterexample): ingesting a message whose id is already stored
in the history for key `"c"`, at a moment when no `PendingBuffer` exists
for `"c"`, is not a no-op: `buffer_message` creates an empty buffer
entry (`{"timer": None, "messages": []}`) before the dedup check, so the
map of `PendingBuffer`s is mutated. -/
theorem dedup_ingest_mutates_buffer_map :
    buffer_message 0
        (AppState.mk [("c", [HistEntry.mk (some "m") UserType.user "x"])] []) "y" "m" "c"
      ≠ AppState.mk [("c", [HistEntry.mk (some "m") UserType.user "x"])] [] ∧
    (buffer_message 0
        (AppState.mk [("c", [HistEntry.mk (some "m") UserType.user "x"])] [])
        "y" "m" "c").message_buffers
      = [("c", Buffer.mk none [])] := by
  decide

/-- C2 (amended): an ingest whose message id already occurs in the key's
history appends no content, cancels no timer and arms no timer, and
leaves the history untouched; when a `PendingBuffer` for the key already
exists the call is a strict no-op, but when none exists an empty buffer
entry (no timer, no messages) is created before the dedup check returns. -/
theorem dedup_ingest_no_append_no_rearm (now : ℚ) (st : AppState) (m mid cid : String)
    (h : (histGet st.chat_history cid).any (fun e => e.message_id == some mid) = true) :
    (buffer_message now st m mid cid).chat_history = st.chat_history ∧
    ((alistGet st.message_buffers cid).isSome = true →
      buffer_message now st m mid cid = st) ∧
    (alistGet st.message_buffers cid = none →
      (buffer_message now st m mid cid).message_buffers
        = alistSet st.message_buffers cid (Buffer.mk none [])) := by
  refine ⟨?_, fun hb => ?_, fun hb => ?_⟩
  · cases hb : (alistGet st.message_buffers cid).isSome <;> simp [buffer_message, h, hb]
  · simp [buffer_message, h, hb]
  · simp [buffer_message, h, hb]

/-- Witness for C2 (amended): a duplicate ingest on a key whose buffer
already exists leaves the whole state unchanged. -/
theorem dedup_ingest_no_append_no_rearm_witness :
    buffer_message 0
        (AppState.mk [("c", [HistEntry.mk (some "m") UserType.user "x"])]
          [("c", Buffer.mk none ["p"])]) "y" "m" "c"
      = AppState.mk [("c", [HistEntry.mk (some "m") UserType.user "x"])]
          [("c", Buffer.mk none ["p"])] :=
  (dedup_ingest_no_append_no_rearm 0 _ "y" "m" "c" (by decide)).2.1 (by decide)

/-! ## C10: deduplication ignores the pending buffer -/

/-- C10: the dedup check compares the incoming id only against history,
not against the pending buffer: if the key's history does not contain
id `m`, ingesting the same `(content, id)` pair twice before any flush
appends the content to the pending list twice, and the eventual flush
merges it twice (space-joined). -/
theorem dedup_ignores_pending_buffer (t1 t2 : ℚ) (st : AppState) (c m k : String)
    (h : (histGet st.chat_history k).any (fun e => e.message_id == some m) = false) :
    ((alistGet (buffer_message t2 (buffer_message t1 st c m k) c m k).message_buffers k).map
        Buffer.messages)
      = some (((alistGet st.message_buffers k).getD (Buffer.mk none [])).messages ++ [c, c]) ∧
    ∀ (o : Oracle) (unames : List (String × String)) (mid : String),
      ∃ b, (process_buffered_messages o unames
              (buffer_message t2 (buffer_message t1 st c m k) c m k) k mid).2
        = some (FlushOutcome.mk (String.intercalate " "
            (((alistGet st.message_buffers k).getD (Buffer.mk none [])).messages ++ [c, c])) b) := by
  have h1 := buffer_message_not_dup t1 st c m k h
  have hh : (buffer_message t1 st c m k).chat_history = st.chat_history := by rw [h1]
  have h2 := buffer_message_not_dup t2 (buffer_message t1 st c m k) c m k (by rw [hh]; exact h)
  have hstate : buffer_message t2 (buffer_message t1 st c m k) c m k
      = AppState.mk st.chat_history
          (alistSet st.message_buffers k
            (Buffer.mk (some (TimerT.mk (t2 + MESSAGE_DELAY) m))
              (((alistGet st.message_buffers k).getD (Buffer.mk none [])).messages ++ [c, c]))) := by
    rw [h2, h1]
    simp [alistGet_set_self, alistSet_set_self]
  rw [hstate]
  constructor
  · rw [alistGet_set_self]
    rfl
  · intro o unames mid
    exact process_merged o unames
      (AppState.mk st.chat_history
        (alistSet st.message_buffers k
          (Buffer.mk (some (TimerT.mk (t2 + MESSAGE_DELAY) m))
            (((alistGet st.message_buffers k).getD (Buffer.mk none [])).messages ++ [c, c]))))
      k mid
      (Buffer.mk (some (TimerT.mk (t2 + MESSAGE_DELAY) m))
        (((alistGet st.message_buffers k).getD (Buffer.mk none [])).messages ++ [c, c]))
      (alistGet_set_self st.message_buffers k _)

/-- Witness for C10: from process start, ingesting `("hi", "m")` twice on
key `"c"` buffers `"hi"` twice, and the flush merges `"hi hi"`. -/
theorem dedup_ignores_pending_buffer_witness :
    ((alistGet (buffer_message 2 (buffer_message 1 initState "hi" "m" "c") "hi" "m" "c").message_buffers
        "c").map Buffer.messages) = some ["hi", "hi"] ∧
    ∃ b, (process_buffered_messages
        (Oracle.mk (fun _ _ => Except.ok "R") (fun _ => "") (fun _ _ => Except.ok ())) []
        (buffer_message 2 (buffer_message 1 initState "hi" "m" "c") "hi" "m" "c") "c" "m").2
      = some (FlushOutcome.mk "hi hi" b) := by
  have hthm := dedup_ignores_pending_buffer 1 2 initState "hi" "m" "c" (by decide)
  refine ⟨by simpa using hthm.1, ?_⟩
  obtain ⟨b, hb⟩ := hthm.2
    (Oracle.mk (fun _ _ => Except.ok "R") (fun _ => "") (fun _ _ => Except.ok ())) [] "m"
  exact ⟨b, by rw [hb]; rfl⟩

/-! ## C3: buffer removal on flush exit -/

/-- C3 (counterexample): a flush during which reply generation raises
exits without removing the `PendingBuffer` — there is no `try/finally`
around `del message_buffers[chat_id]`, so the buffer entry (with its
messages) survives the failed flush. -/
theorem flush_gen_error_keeps_buffer :
    (process_buffered_messages
        (Oracle.mk (fun _ _ => Except.error ()) (fun _ => "") (fun _ _ => Except.ok ()))
        [] (AppState.mk [] [("c", Buffer.mk none ["hi"])]) "c" "m").1.message_buffers
      = [("c", Buffer.mk none ["hi"])] ∧
    alistGet (process_buffered_messages
        (Oracle.mk (fun _ _ => Except.error ()) (fun _ => "") (fun _ _ => Except.ok ()))
        [] (AppState.mk [] [("c", Buffer.mk none ["hi"])]) "c" "m").1.message_buffers "c"
      ≠ none := by
  refine ⟨by decide, by decide⟩

/-- C3 (amended): when `flush` runs on a key whose `PendingBuffer`
exists, the buffer is removed exactly when the flush completes without
an exception; when reply generation or delivery raises, the flush exits
with the buffer map untouched (the `PendingBuffer` survives). -/
theorem flush_buffer_removed_iff_ok (o : Oracle) (unames : List (String × String))
    (st : AppState) (k mid : String) (buf : Buffer)
    (hb : alistGet st.message_buffers k = some buf) :
    ∃ out : FlushOutcome,
      (process_buffered_messages o unames st k mid).2 = some out ∧
      (process_buffered_messages o unames st k mid).1.message_buffers
        = (if out.ok then alistErase st.message_buffers k else st.message_buffers) ∧
      (out.ok = true →
        alistGet (process_buffered_messages o unames st k mid).1.message_buffers k = none) := by
  unfold process_buffered_messages
  rw [hb]
  dsimp only
  split
  · exact ⟨FlushOutcome.mk _ false, rfl, by simp, by simp⟩
  · split
    · split
      · exact ⟨FlushOutcome.mk _ false, rfl, by simp, by simp⟩
      · exact ⟨FlushOutcome.mk _ true, rfl, by simp, fun _ => by simp [alistGet_erase_self]⟩
    · exact ⟨FlushOutcome.mk _ true, rfl, by simp, fun _ => by simp [alistGet_erase_self]⟩

/-- Witness for C3 (amended): a successful flush removes the buffer. -/
theorem flush_buffer_removed_iff_ok_witness :
    ∃ out : FlushOutcome,
      (process_buffered_messages
          (Oracle.mk (fun _ _ => Except.ok "R") (fun _ => "") (fun _ _ => Except.ok ()))
          [] (AppState.mk [] [("c", Buffer.mk none ["hi"])]) "c" "m").2 = some out ∧
      (process_buffered_messages
          (Oracle.mk (fun _ _ => Except.ok "R") (fun _ => "") (fun _ _ => Except.ok ()))
          [] (AppState.mk [] [("c", Buffer.mk none ["hi"])]) "c" "m").1.message_buffers
        = (if out.ok then alistErase [("c", Buffer.mk none ["hi"])] "c"
           else [("c", Buffer.mk none ["hi"])]) ∧
      (out.ok = true →
        alistGet (process_buffered_messages
            (Oracle.mk (fun _ _ => Except.ok "R") (fun _ => "") (fun _ _ => Except.ok ()))
            [] (AppState.mk [] [("c", Buffer.mk none ["hi"])]) "c" "m").1.message_buffers "c"
          = none) :=
  flush_buffer_removed_iff_ok
    (Oracle.mk (fun _ _ => Except.ok "R") (fun _ => "") (fun _ _ => Except.ok ()))
    [] (AppState.mk [] [("c", Buffer.mk none ["hi"])]) "c" "m"
    (Buffer.mk none ["hi"]) (by decide)

/-! ## C6 and C7: history contents around generation / delivery failures -/

/-- C6: when the reply-generation call raises during a flush, no agent
(`'me'`) turn is appended: the history after the failed flush is exactly
the old history plus the participant turn for the merged batch. -/
theorem gen_error_no_agent_turn (o : Oracle) (unames : List (String × String))
    (st : AppState) (k mid : String) (buf : Buffer)
    (hb : alistGet st.message_buffers k = some buf)
    (hgen : ∀ c u, o.gen c u = Except.error ()) :
    (process_buffered_messages o unames st k mid).1.chat_history
      = append_chat_history st.chat_history k UserType.user
          (String.intercalate " " buf.messages) (some mid) ∧
    histGet (process_buffered_messages o unames st k mid).1.chat_history k
      = append_hist_entry (histGet st.chat_history k)
          (HistEntry.mk (some mid) UserType.user (String.intercalate " " buf.messages)) := by
  have hmain : (process_buffered_messages o unames st k mid).1.chat_history
      = append_chat_history st.chat_history k UserType.user
          (String.intercalate " " buf.messages) (some mid) := by
    unfold process_buffered_messages
    rw [hb]
    dsimp only
    simp only [generate_response, hgen]
  refine ⟨hmain, ?_⟩
  rw [hmain, histGet_append_self]

/-- Witness for C6: one flush with a one-message buffer and a raising
generator appends only the participant turn. -/
theorem gen_error_no_agent_turn_witness :
    (process_buffered_messages
        (Oracle.mk (fun _ _ => Except.error ()) (fun _ => "") (fun _ _ => Except.ok ()))
        [] (AppState.mk [] [("c", Buffer.mk none ["hi"])]) "c" "m").1.chat_history
      = append_chat_history [] "c" UserType.user (String.intercalate " " ["hi"]) (some "m") ∧
    histGet (process_buffered_messages
        (Oracle.mk (fun _ _ => Except.error ()) (fun _ => "") (fun _ _ => Except.ok ()))
        [] (AppState.mk [] [("c", Buffer.mk none ["hi"])]) "c" "m").1.chat_history "c"
      = append_hist_entry (histGet [] "c")
          (HistEntry.mk (some "m") UserType.user (String.intercalate " " ["hi"])) :=
  gen_error_no_agent_turn
    (Oracle.mk (fun _ _ => Except.error ()) (fun _ => "") (fun _ _ => Except.ok ()))
    [] (AppState.mk [] [("c", Buffer.mk none ["hi"])]) "c" "m"
    (Buffer.mk none ["hi"]) (by decide) (fun _ _ => rfl)

/-- C7: the agent turn holding the generated reply is appended to the
history before the delivery call, so when delivery raises the reply is
already (and stays) in history: the post-flush history is the old one
plus the participant turn plus the `'me'` turn, even though the flush
reports a failure and the buffer survives. -/
theorem reply_in_history_despite_delivery_error (o : Oracle)
    (unames : List (String × String)) (st : AppState) (k mid r : String) (buf : Buffer)
    (hb : alistGet st.message_buffers k = some buf)
    (hgen : ∀ c u, o.gen c u = Except.ok r)
    (hch : o.choice k = "y")
    (hsend : ∀ c t, o.send c t = Except.error ()) :
    (process_buffered_messages o unames st k mid).1.chat_history
      = append_chat_history
          (append_chat_history st.chat_history k UserType.user
            (String.intercalate " " buf.messages) (some mid))
          k UserType.me r none ∧
    histGet (process_buffered_messages o unames st k mid).1.chat_history k
      = append_hist_entry
          (append_hist_entry (histGet st.chat_history k)
            (HistEntry.mk (some mid) UserType.user (String.intercalate " " buf.messages)))
          (HistEntry.mk none UserType.me r) ∧
    (process_buffered_messages o unames st k mid).2
      = some (FlushOutcome.mk (String.intercalate " " buf.messages) false) := by
  have hcond : (("y" : String) != "" && str_lower "y" == "y") = true := by decide
  have hmain : process_buffered_messages o unames st k mid
      = (AppState.mk
          (append_chat_history
            (append_chat_history st.chat_history k UserType.user
              (String.intercalate " " buf.messages) (some mid))
            k UserType.me r none)
          st.message_buffers,
         some (FlushOutcome.mk (String.intercalate " " buf.messages) false)) := by
    unfold process_buffered_messages
    rw [hb]
    dsimp only
    simp only [generate_response, hgen, hch, hcond, hsend, if_true]
  refine ⟨by rw [hmain], ?_, by rw [hmain]⟩
  rw [hmain]
  dsimp only
  rw [histGet_append_self, histGet_append_self]

/-- Witness for C7: concrete flush where delivery raises; the reply
`"R"` is in the history afterwards. -/
theorem reply_in_history_despite_delivery_error_witness :
    (process_buffered_messages
        (Oracle.mk (fun _ _ => Except.ok "R") (fun _ => "y") (fun _ _ => Except.error ()))
        [] (AppState.mk [] [("c", Buffer.mk none ["hi"])]) "c" "m").1.chat_history
      = append_chat_history
          (append_chat_history [] "c" UserType.user
            (String.intercalate " " ["hi"]) (some "m"))
          "c" UserType.me "R" none ∧
    histGet (process_buffered_messages
        (Oracle.mk (fun _ _ => Except.ok "R") (fun _ => "y") (fun _ _ => Except.error ()))
        [] (AppState.mk [] [("c", Buffer.mk none ["hi"])]) "c" "m").1.chat_history "c"
      = append_hist_entry
          (append_hist_entry (histGet [] "c")
            (HistEntry.mk (some "m") UserType.user (String.intercalate " " ["hi"])))
          (HistEntry.mk none UserType.me "R") ∧
    (process_buffered_messages
        (Oracle.mk (fun _ _ => Except.ok "R") (fun _ => "y") (fun _ _ => Except.error ()))
        [] (AppState.mk [] [("c", Buffer.mk none ["hi"])]) "c" "m").2
      = some (FlushOutcome.mk (String.intercalate " " ["hi"]) false) :=
  reply_in_history_despite_delivery_error
    (Oracle.mk (fun _ _ => Except.ok "R") (fun _ => "y") (fun _ _ => Except.error ()))
    [] (AppState.mk [] [("c", Buffer.mk none ["hi"])]) "c" "m" "R"
    (Buffer.mk none ["hi"]) (by decide) (fun _ _ => rfl) rfl (fun _ _ => rfl)

/-! ## C1 and C5: one flush per burst, merged in order, last id recorded -/

theorem lastTI_cons (t : ℚ) (i : String) (e : Event) (es : List Event) :
    lastTI t i (e :: es) = lastTI e.time e.message_id es := rfl

theorem gapsOk_cons (a : Event) (l : List Event) (h : gapsOk (a :: l) = true) :
    gapsOk l = true ∧
      (∀ e, l.head? = some e → a.time < e.time ∧ e.time < a.time + MESSAGE_DELAY) := by
  cases l with
  | nil => exact ⟨rfl, by intro e he; cases he⟩
  | cons b bs =>
      simp only [gapsOk, Bool.and_eq_true, decide_eq_true_eq] at h
      refine ⟨?_, ?_⟩
      · simpa [gapsOk] using h.2
      · intro e he
        simp only [List.head?_cons, Option.some.injEq] at he
        subst he
        exact ⟨h.1.1, h.1.2⟩

/-- While the armed timer's deadline has not passed, an ingest on the
same key fires nothing, appends the content and rearms the timer. -/
theorem step_acc_accumulating (o : Oracle) (unames : List (String × String)) (k : String)
    (prevT : ℚ) (prevId : String) (msgs : List String) (recs : List FlushRec) (e : Event)
    (hk : e.chat_id = k) (h2 : e.time < prevT + MESSAGE_DELAY) :
    step_acc o unames
        (AppState.mk [] [(k, Buffer.mk (some (TimerT.mk (prevT + MESSAGE_DELAY) prevId)) msgs)],
          recs) e
      = (AppState.mk []
          [(k, Buffer.mk (some (TimerT.mk (e.time + MESSAGE_DELAY) e.message_id))
            (msgs ++ [e.message]))], recs) := by
  subst hk
  have hnd : isDue (some e.time) (TimerT.mk (prevT + MESSAGE_DELAY) prevId) = false := by
    simp [isDue]
    exact h2
  unfold step_acc step_event fire_due due_timers buffer_message
  simp [hnd, alistGet, alistSet, histGet]

/-- First ingest of a burst from process start: creates the buffer and
arms the first timer. -/
theorem step_acc_first (o : Oracle) (unames : List (String × String)) (k : String)
    (e : Event) (hk : e.chat_id = k) :
    step_acc o unames (initState, []) e
      = (AppState.mk []
          [(k, Buffer.mk (some (TimerT.mk (e.time + MESSAGE_DELAY) e.message_id))
            [e.message])], []) := by
  subst hk
  unfold step_acc step_event fire_due due_timers initState buffer_message
  simp [alistGet, alistSet, histGet]

/-- The accumulation lemma: over a burst (each gap strictly below the
quiet period), every step only appends and rearms; no flush fires. -/
theorem burst_fold (o : Oracle) (unames : List (String × String)) (k : String) :
    ∀ (es : List Event) (prevT : ℚ) (prevId : String) (msgs : List String)
      (recs : List FlushRec),
      (∀ e ∈ es, e.chat_id = k) →
      gapsOk es = true →
      (∀ e, es.head? = some e → prevT < e.time ∧ e.time < prevT + MESSAGE_DELAY) →
      es.foldl (step_acc o unames)
          (AppState.mk [] [(k, Buffer.mk (some (TimerT.mk (prevT + MESSAGE_DELAY) prevId)) msgs)],
            recs)
        = (AppState.mk []
            [(k, Buffer.mk (some (TimerT.mk ((lastTI prevT prevId es).1 + MESSAGE_DELAY)
                (lastTI prevT prevId es).2)) (msgs ++ es.map Event.message))], recs) := by
  intro es
  induction es with
  | nil =>
      intro prevT prevId msgs recs _ _ _
      simp [lastTI]
  | cons e es ih =>
      intro prevT prevId msgs recs hkey hgaps hhead
      obtain ⟨h1, h2⟩ := hhead e rfl
      rw [List.foldl_cons,
        step_acc_accumulating o unames k prevT prevId msgs recs e (hkey e (by simp)) h2]
      have hg := gapsOk_cons e es hgaps
      have hrec := ih e.time e.message_id (msgs ++ [e.message]) recs
        (fun x hx => hkey x (by simp [hx])) hg.1 hg.2
      rw [hrec, lastTI_cons]
      simp

theorem generate_response_ok (gen : String → String → Except Unit String)
    (unames : List (String × String)) (h : Histories) (cid : String)
    (h' : Histories) (r : String)
    (hok : generate_response gen unames h cid = Except.ok (h', r)) :
    h' = append_chat_history h cid UserType.me r none := by
  simp only [generate_response] at hok
  cases hg : gen (generate_conversation (histGet h cid) (get_user_name unames cid))
      (get_user_name unames cid) with
  | error e => rw [hg] at hok; cases hok
  | ok t =>
      rw [hg] at hok
      cases hok
      rfl

/-- A flush from an empty history map: it always reports the space-join
of the buffered messages, and the history for the key afterwards starts
with the participant turn carrying the flush's `message_id`, followed
only by id-less (agent) turns. -/
theorem process_from_empty (o : Oracle) (unames : List (String × String))
    (bufs : List (String × Buffer)) (k mid : String) (buf : Buffer)
    (hb : alistGet bufs k = some buf) :
    ∃ (b : Bool) (rest : List HistEntry),
      (process_buffered_messages o unames (AppState.mk [] bufs) k mid).2
        = some (FlushOutcome.mk (String.intercalate " " buf.messages) b) ∧
      histGet (process_buffered_messages o unames (AppState.mk [] bufs) k mid).1.chat_history k
        = HistEntry.mk (some mid) UserType.user (String.intercalate " " buf.messages) :: rest ∧
      ∀ e ∈ rest, e.message_id = none := by
  have hpart : histGet (append_chat_history ([] : Histories) k UserType.user
      (String.intercalate " " buf.messages) (some mid)) k
      = [HistEntry.mk (some mid) UserType.user (String.intercalate " " buf.messages)] := by
    rw [histGet_append_self]
    rfl
  unfold process_buffered_messages
  rw [hb]
  dsimp only
  split
  · exact ⟨false, [], rfl, hpart, by simp⟩
  · rename_i h2 response hok
    have hh2 := generate_response_ok o.gen unames _ k h2 response hok
    have hh2get : histGet h2 k
        = [HistEntry.mk (some mid) UserType.user (String.intercalate " " buf.messages),
           HistEntry.mk none UserType.me response] := by
      rw [hh2, histGet_append_self, hpart]
      rfl
    split
    · split
      · exact ⟨false, [HistEntry.mk none UserType.me response], rfl, hh2get, by simp⟩
      · exact ⟨true, [HistEntry.mk none UserType.me response], rfl, hh2get, by simp⟩
    · exact ⟨true, [HistEntry.mk none UserType.me response], rfl, hh2get, by simp⟩

/-- Firing the only remaining timer: the callback runs once, merges the
buffer and logs exactly one flush record carrying the timer's deadline
and message id. -/
theorem fire_due_final (o : Oracle) (unames : List (String × String))
    (k : String) (tm : TimerT) (msgs : List String) :
    ∃ (b : Bool) (rest : List HistEntry),
      (fire_due o unames none
          (AppState.mk [] [(k, Buffer.mk (some tm) msgs)])).2
        = [FlushRec.mk tm.fireAt k tm.message_id (String.intercalate " " msgs) b] ∧
      histGet (fire_due o unames none
          (AppState.mk [] [(k, Buffer.mk (some tm) msgs)])).1.chat_history k
        = HistEntry.mk (some tm.message_id) UserType.user (String.intercalate " " msgs) :: rest ∧
      ∀ e ∈ rest, e.message_id = none := by
  have hget : alistGet [(k, Buffer.mk none msgs)] k = some (Buffer.mk none msgs) := by
    simp [alistGet]
  obtain ⟨b, rest, hout, hhist, hrest⟩ :=
    process_from_empty o unames [(k, Buffer.mk none msgs)] k tm.message_id
      (Buffer.mk none msgs) hget
  have hft : fire_timer o unames (AppState.mk [] [(k, Buffer.mk (some tm) msgs)]) k tm
      = ((process_buffered_messages o unames
            (AppState.mk [] [(k, Buffer.mk none msgs)]) k tm.message_id).1,
         (process_buffered_messages o unames
            (AppState.mk [] [(k, Buffer.mk none msgs)]) k tm.message_id).2.map
           (fun out => FlushRec.mk tm.fireAt k tm.message_id out.merged out.ok)) := by
    unfold fire_timer
    simp [alistGet, alistSet]
  have hfd : fire_due o unames none (AppState.mk [] [(k, Buffer.mk (some tm) msgs)])
      = ((fire_timer o unames (AppState.mk [] [(k, Buffer.mk (some tm) msgs)]) k tm).1,
         (fire_timer o unames (AppState.mk [] [(k, Buffer.mk (some tm) msgs)]) k tm).2.toList) := by
    unfold fire_due due_timers isDue
    simp
  refine ⟨b, rest, ?_, ?_, hrest⟩
  · rw [hfd, hft, hout]
    rfl
  · rw [hfd, hft]
    exact hhist

/-- C1: for every nonempty sequence of ingests on the same conversation
key whose consecutive arrivals are spaced strictly less than the quiet
period `MESSAGE_DELAY` apart, exactly one flush occurs — each ingest
cancels the previously armed timer, so the only callback that ever runs
is the last one's, at the last arrival time plus the quiet period — and
its merged content is all ingested contents in arrival order joined by
a single space. -/
theorem debounce_burst_single_flush (o : Oracle) (unames : List (String × String))
    (es : List Event) (k : String)
    (hne : es ≠ [])
    (hkey : ∀ e ∈ es, e.chat_id = k)
    (hgaps : gapsOk es = true) :
    (run_events o unames es).2.map (fun fr => (fr.time, fr.chat_id, fr.message_id, fr.merged))
      = [((lastTI 0 "" es).1 + MESSAGE_DELAY, k, (lastTI 0 "" es).2,
          String.intercalate " " (es.map Event.message))] := by
  cases es with
  | nil => exact absurd rfl hne
  | cons e0 rest =>
      have hk0 : e0.chat_id = k := hkey e0 (by simp)
      have hg := gapsOk_cons e0 rest hgaps
      obtain ⟨b, hrest2, hlog, hhist, hnone⟩ := fire_due_final o unames k
        (TimerT.mk ((lastTI e0.time e0.message_id rest).1 + MESSAGE_DELAY)
          (lastTI e0.time e0.message_id rest).2)
        ([e0.message] ++ rest.map Event.message)
      unfold run_events
      rw [List.foldl_cons, step_acc_first o unames k e0 hk0,
        burst_fold o unames k rest e0.time e0.message_id [e0.message] []
          (fun x hx => hkey x (by simp [hx])) hg.1 hg.2]
      dsimp only
      rw [hlog, lastTI_cons]
      simp

/-- C5: after the single flush of a burst, the participant turn appended
to history carries exactly the message id of the last ingested message
of the batch; every other turn recorded by the flush (the agent reply,
when generation succeeded) has no message id, so earlier ids of the
batch appear nowhere in history. -/
theorem flush_records_last_message_id (o : Oracle) (unames : List (String × String))
    (es : List Event) (k : String)
    (hne : es ≠ [])
    (hkey : ∀ e ∈ es, e.chat_id = k)
    (hgaps : gapsOk es = true) :
    ∃ rest : List HistEntry,
      histGet (run_events o unames es).1.chat_history k
        = HistEntry.mk (some (lastTI 0 "" es).2) UserType.user
            (String.intercalate " " (es.map Event.message)) :: rest ∧
      ∀ e ∈ rest, e.message_id = none := by
  cases es with
  | nil => exact absurd rfl hne
  | cons e0 rest =>
      have hk0 : e0.chat_id = k := hkey e0 (by simp)
      have hg := gapsOk_cons e0 rest hgaps
      obtain ⟨b, hrest2, hlog, hhist, hnone⟩ := fire_due_final o unames k
        (TimerT.mk ((lastTI e0.time e0.message_id rest).1 + MESSAGE_DELAY)
          (lastTI e0.time e0.message_id rest).2)
        ([e0.message] ++ rest.map Event.message)
      unfold run_events
      rw [List.foldl_cons, step_acc_first o unames k e0 hk0,
        burst_fold o unames k rest e0.time e0.message_id [e0.message] []
          (fun x hx => hkey x (by simp [hx])) hg.1 hg.2]
      dsimp only
      refine ⟨hrest2, ?_, hnone⟩
      rw [hhist, lastTI_cons]
      simp

/-- Witness for C1: two messages at t=1s and t=2s (gap 1s < 5s) on chat
`"c"` yield exactly one flush, at t=7s, merging `"a b"` with id `"m2"`. -/
theorem debounce_burst_single_flush_witness :
    (run_events
        (Oracle.mk (fun _ _ => Except.ok "R") (fun _ => "") (fun _ _ => Except.ok ())) []
        [Event.mk 1 "a" "m1" "c", Event.mk 2 "b" "m2" "c"]).2.map
        (fun fr => (fr.time, fr.chat_id, fr.message_id, fr.merged))
      = [((7 : ℚ), "c", "m2", "a b")] := by
  have h := debounce_burst_single_flush
    (Oracle.mk (fun _ _ => Except.ok "R") (fun _ => "") (fun _ _ => Except.ok ())) []
    [Event.mk 1 "a" "m1" "c", Event.mk 2 "b" "m2" "c"] "c"
    (by decide) (by decide)
    (by simp only [gapsOk, Bool.and_eq_true, decide_eq_true_eq]
        norm_num [MESSAGE_DELAY])
  rw [h]
  norm_num [lastTI, MESSAGE_DELAY]
  rfl

/-- Witness for C5: in the same two-message burst, the participant turn
carries id `"m2"` (the last message's id) and all other recorded turns
are id-less. -/
theorem flush_records_last_message_id_witness :
    ∃ rest : List HistEntry,
      histGet (run_events
          (Oracle.mk (fun _ _ => Except.ok "R") (fun _ => "") (fun _ _ => Except.ok ())) []
          [Event.mk 1 "a" "m1" "c", Event.mk 2 "b" "m2" "c"]).1.chat_history "c"
        = HistEntry.mk (some "m2") UserType.user "a b" :: rest ∧
      ∀ e ∈ rest, e.message_id = none := by
  obtain ⟨rest, h1, h2⟩ := flush_records_last_message_id
    (Oracle.mk (fun _ _ => Except.ok "R") (fun _ => "") (fun _ _ => Except.ok ())) []
    [Event.mk 1 "a" "m1" "c", Event.mk 2 "b" "m2" "c"] "c"
    (by decide) (by decide)
    (by simp only [gapsOk, Bool.and_eq_true, decide_eq_true_eq]
        norm_num [MESSAGE_DELAY])
  refine ⟨rest, ?_, h2⟩
  rw [h1]
  simp [lastTI]
  rfl
